import Mathlib

/-
  Verification of the examsplit fragment-reconstruction pipeline and batch
  scheduler, as a shallow embedding of the JavaScript sources:
    scripts/split.js, scripts/batch-process.js, shared/canvas-utils.js
    (getTrimmedBounds, isContained, trimWhitespace) and the pdfService
    variant of cropAndStitchImage.
  JS numbers are modelled as Nat / Int / Rat.  For the few places where the
  source computes Math.floor(h * 0.3) in IEEE doubles, the result coincides
  with the integer expression 3 * h / 10 for every realistic h (the rounding
  error of the double 0.3 is far below the distance of 3h/10 to the next
  integer, and for multiples of 10 the product rounds to the exact integer),
  so the embedding uses 3 * h / 10.
-/

/-- One RGBA pixel as read from canvas image data. -/
structure Pixel where
  r : Nat
  g : Nat
  b : Nat
  a : Nat
deriving DecidableEq

/-- A raster image: canvas dimensions plus pixel lookup. -/
structure Img where
  w : Nat
  h : Nat
  px : Nat → Nat → Pixel

/-- A rectangle x, y, w, h as returned by the trimming routines. -/
structure Rect where
  x : Nat
  y : Nat
  w : Nat
  h : Nat
deriving DecidableEq

def whitePixel : Pixel := ⟨255, 255, 255, 255⟩

/-- Ink test of getTrimmedBounds: opaque and any channel below 200. -/
def isInkPixel (p : Pixel) : Bool :=
  decide (0 < p.a) && (decide (p.r < 200) || decide (p.g < 200) || decide (p.b < 200))

/-- rowHasInk of getTrimmedBounds: some pixel of row y is ink. -/
def rowHasInk (img : Img) (y : Nat) : Bool :=
  (List.range img.w).any fun x => isInkPixel (img.px x y)

/-- colHasInk of getTrimmedBounds: some pixel of column x is ink. -/
def colHasInk (img : Img) (x : Nat) : Bool :=
  (List.range img.h).any fun y => isInkPixel (img.px x y)

/-- The loop `while acc < limit and test acc: acc++`, with fuel equal to the
remaining distance to the limit.  Models the top and left peeling loops. -/
def peelUp (test : Nat → Bool) : Nat → Nat → Nat
  | 0, acc => acc
  | fuel + 1, acc => if test acc then peelUp test fuel (acc + 1) else acc

/-- The loop `while lo < b and test (b-1): b--`.  Models the bottom and right
peeling loops, whose guard is a conjunction of two lower bounds. -/
def peelDown (test : Nat → Bool) (lo : Nat) : Nat → Nat → Nat
  | 0, b => b
  | fuel + 1, b => if decide (lo < b) && test (b - 1) then peelDown test lo fuel (b - 1) else b

/-- The 30 percent safety margin of getTrimmedBounds (Math.floor(n * 0.3)). -/
def safetyMargin (n : Nat) : Nat := 3 * n / 10

/-- The local top of getTrimmedBounds: `while top < SAFETY_Y and rowHasInk top`. -/
def trimTop (img : Img) : Nat := peelUp (rowHasInk img) (safetyMargin img.h) 0

/-- The local bottom of getTrimmedBounds:
while bottom > h - SAFETY_Y and bottom > top and rowHasInk (bottom-1). -/
def trimBottom (img : Img) : Nat :=
  peelDown (rowHasInk img) (max (img.h - safetyMargin img.h) (trimTop img)) img.h img.h

/-- The local left of getTrimmedBounds. -/
def trimLeft (img : Img) : Nat := peelUp (colHasInk img) (safetyMargin img.w) 0

/-- The local right of getTrimmedBounds. -/
def trimRight (img : Img) : Nat :=
  peelDown (colHasInk img) (max (img.w - safetyMargin img.w) (trimLeft img)) img.w img.w

/-- EdgePeelTrimmer, from getTrimmedBounds in shared/canvas-utils.js.
Peels ink-bearing rows and columns inward from each edge, each edge
bounded by the 30 percent safety margin, bottom additionally by top and
right by left.  Dimensions are already integral, so the Math.floor on
width and height is the identity. -/
def getTrimmedBounds (img : Img) : Rect :=
  if img.w = 0 ∨ img.h = 0 then ⟨0, 0, 0, 0⟩
  else ⟨trimLeft img, trimTop img, trimRight img - trimLeft img, trimBottom img - trimTop img⟩

/-- The sub-image a trim rectangle selects (a pixel-exact crop at integer
coordinates, as drawImage performs for integral source rectangles). -/
def subImg (img : Img) (r : Rect) : Img :=
  ⟨r.w, r.h, fun x y => img.px (r.x + x) (r.y + y)⟩

/-- A fully black crop, on which every peeling loop hits the safety limit. -/
def blackImg10 : Img := ⟨10, 10, fun _ _ => ⟨0, 0, 0, 255⟩⟩

/-- A 3 by 3 crop whose only ink pixel is the center one. -/
def dotImg3 : Img :=
  ⟨3, 3, fun x y => if x = 1 ∧ y = 1 then ⟨0, 0, 0, 255⟩ else whitePixel⟩

lemma peelUp_le (test : Nat → Bool) (fuel acc : Nat) : peelUp test fuel acc ≤ acc + fuel := by
  induction fuel generalizing acc with
  | zero => simp [peelUp]
  | succ n ih =>
    simp only [peelUp]
    split
    · have := ih (acc + 1)
      omega
    · omega

lemma peelUp_stop (test : Nat → Bool) (fuel acc : Nat) (h : test acc = false) :
    peelUp test fuel acc = acc := by
  cases fuel <;> simp [peelUp, h]

lemma peelDown_le (test : Nat → Bool) (lo fuel b : Nat) : peelDown test lo fuel b ≤ b := by
  induction fuel generalizing b with
  | zero => simp [peelDown]
  | succ n ih =>
    simp only [peelDown]
    split
    · have := ih (b - 1)
      omega
    · omega

lemma le_peelDown (test : Nat → Bool) (lo fuel b : Nat) (h : lo ≤ b) :
    lo ≤ peelDown test lo fuel b := by
  induction fuel generalizing b with
  | zero => simpa [peelDown] using h
  | succ n ih =>
    simp only [peelDown]
    split
    · rename_i hguard
      have hlt : lo < b := by
        have := hguard
        simp only [Bool.and_eq_true, decide_eq_true_eq] at this
        exact this.1
      exact ih (b - 1) (by omega)
    · exact h

lemma peelDown_stop (test : Nat → Bool) (lo fuel b : Nat) (h : test (b - 1) = false) :
    peelDown test lo fuel b = b := by
  cases fuel <;> simp [peelDown, h]

lemma safetyMargin_mul_le (n : Nat) : safetyMargin n * 10 ≤ 3 * n := by
  have := Nat.div_mul_le_self (3 * n) 10
  simpa [safetyMargin] using this

lemma rowHasInk_eq_false_iff (img : Img) (y : Nat) :
    rowHasInk img y = false ↔ ∀ x, x < img.w → isInkPixel (img.px x y) = false := by
  simp [rowHasInk, List.any_eq_false, List.mem_range]

lemma colHasInk_eq_false_iff (img : Img) (x : Nat) :
    colHasInk img x = false ↔ ∀ y, y < img.h → isInkPixel (img.px x y) = false := by
  simp [colHasInk, List.any_eq_false, List.mem_range]

/-- Structural bounds of the edge peel: the trim rectangle is nonempty and
lies inside the image whenever the image itself is nonempty (each peeling
loop is stopped by its 30 percent safety margin before the edges can meet). -/
lemma getTrimmedBounds_bounds (img : Img) (hw : 0 < img.w) (hh : 0 < img.h) :
    0 < (getTrimmedBounds img).w ∧ 0 < (getTrimmedBounds img).h ∧
    (getTrimmedBounds img).x + (getTrimmedBounds img).w ≤ img.w ∧
    (getTrimmedBounds img).y + (getTrimmedBounds img).h ≤ img.h := by
  have hcond : ¬(img.w = 0 ∨ img.h = 0) := by omega
  rw [getTrimmedBounds, if_neg hcond]
  have htople : trimTop img ≤ safetyMargin img.h := by
    have := peelUp_le (rowHasInk img) (safetyMargin img.h) 0
    simpa [trimTop] using this
  have hleftle : trimLeft img ≤ safetyMargin img.w := by
    have := peelUp_le (colHasInk img) (safetyMargin img.w) 0
    simpa [trimLeft] using this
  have hsy := safetyMargin_mul_le img.h
  have hsx := safetyMargin_mul_le img.w
  have hbot_le : trimBottom img ≤ img.h := peelDown_le _ _ _ _
  have hright_le : trimRight img ≤ img.w := peelDown_le _ _ _ _
  have hbot_ge : max (img.h - safetyMargin img.h) (trimTop img) ≤ trimBottom img := by
    apply le_peelDown
    omega
  have hright_ge : max (img.w - safetyMargin img.w) (trimLeft img) ≤ trimRight img := by
    apply le_peelDown
    omega
  simp only [max_le_iff] at hbot_ge hright_ge
  refine ⟨?_, ?_, ?_, ?_⟩ <;> simp only <;> omega

/-- C1 counterexample: on a fully black 10 by 10 crop every peeling loop stops
at the 30 percent safety limit, the trim rectangle is x 3, y 3, w 4, h 4, and
re-applying getTrimmedBounds to that sub-image peels again (safety margin of
the 4 by 4 crop is 1), returning x 1, y 1, w 2, h 2 instead of x 0, y 0,
w 4, h 4.  Edge-peel trimming is therefore not idempotent at the safety
limit, contrary to the claim. -/
theorem c1_counterexample_safety_not_idempotent :
    getTrimmedBounds (subImg blackImg10 (getTrimmedBounds blackImg10)) ≠
      ⟨0, 0, (getTrimmedBounds blackImg10).w, (getTrimmedBounds blackImg10).h⟩ := by
  decide

/-- C1 amended: edge-peel trimming is idempotent whenever each of the four
peeling loops stopped at a clean (ink-free) row or column of the original
crop rather than at the 30 percent safety limit: the second application then
returns the whole already-trimmed rectangle x 0, y 0, w, h. -/
theorem c1_getTrimmedBounds_idempotent_of_clean_stops (img : Img)
    (hw : 0 < img.w) (hh : 0 < img.h)
    (htop : rowHasInk img (getTrimmedBounds img).y = false)
    (hbot : rowHasInk img ((getTrimmedBounds img).y + (getTrimmedBounds img).h - 1) = false)
    (hleft : colHasInk img (getTrimmedBounds img).x = false)
    (hright : colHasInk img ((getTrimmedBounds img).x + (getTrimmedBounds img).w - 1) = false) :
    getTrimmedBounds (subImg img (getTrimmedBounds img)) =
      ⟨0, 0, (getTrimmedBounds img).w, (getTrimmedBounds img).h⟩ := by
  obtain ⟨hrw, hrh, hxw, hyh⟩ := getTrimmedBounds_bounds img hw hh
  set r := getTrimmedBounds img with hr
  have hsubw : (subImg img r).w = r.w := rfl
  have hsubh : (subImg img r).h = r.h := rfl
  have hsubpx : ∀ x y, (subImg img r).px x y = img.px (r.x + x) (r.y + y) := fun _ _ => rfl
  -- the first row, last row, first column and last column of the sub-image
  -- are ink free, because the corresponding full rows and columns of the
  -- original image are
  have h0row : rowHasInk (subImg img r) 0 = false := by
    rw [rowHasInk_eq_false_iff]
    intro x hx
    rw [hsubpx]
    exact (rowHasInk_eq_false_iff img r.y).mp htop (r.x + x) (by omega)
  have hlastrow : rowHasInk (subImg img r) ((subImg img r).h - 1) = false := by
    rw [rowHasInk_eq_false_iff]
    intro x hx
    rw [hsubpx]
    have : r.y + (r.h - 1) = r.y + r.h - 1 := by omega
    rw [hsubh, this]
    exact (rowHasInk_eq_false_iff img (r.y + r.h - 1)).mp hbot (r.x + x) (by omega)
  have h0col : colHasInk (subImg img r) 0 = false := by
    rw [colHasInk_eq_false_iff]
    intro y hy
    rw [hsubpx]
    exact (colHasInk_eq_false_iff img r.x).mp hleft (r.y + y) (by omega)
  have hlastcol : colHasInk (subImg img r) ((subImg img r).w - 1) = false := by
    rw [colHasInk_eq_false_iff]
    intro y hy
    rw [hsubpx]
    have : r.x + (r.w - 1) = r.x + r.w - 1 := by omega
    rw [hsubw, this]
    exact (colHasInk_eq_false_iff img (r.x + r.w - 1)).mp hright (r.y + y) (by omega)
  have hcond : ¬((subImg img r).w = 0 ∨ (subImg img r).h = 0) := by
    rw [hsubw, hsubh]
    omega
  rw [getTrimmedBounds, if_neg hcond]
  have htop0 : trimTop (subImg img r) = 0 := peelUp_stop _ _ _ h0row
  have hleft0 : trimLeft (subImg img r) = 0 := peelUp_stop _ _ _ h0col
  have hbotfull : trimBottom (subImg img r) = (subImg img r).h :=
    peelDown_stop _ _ _ _ hlastrow
  have hrightfull : trimRight (subImg img r) = (subImg img r).w :=
    peelDown_stop _ _ _ _ hlastcol
  rw [htop0, hleft0, hbotfull, hrightfull, hsubw, hsubh]
  simp

/-- C1 witness: on the 3 by 3 crop with a single center ink pixel all four
loops stop at clean rows and columns, and the amended idempotence theorem
applies concretely. -/
theorem c1_witness :
    0 < dotImg3.w ∧ 0 < dotImg3.h ∧
    rowHasInk dotImg3 (getTrimmedBounds dotImg3).y = false ∧
    getTrimmedBounds (subImg dotImg3 (getTrimmedBounds dotImg3)) =
      ⟨0, 0, (getTrimmedBounds dotImg3).w, (getTrimmedBounds dotImg3).h⟩ :=
  ⟨by decide, by decide, by decide,
   c1_getTrimmedBounds_idempotent_of_clean_stops dotImg3 (by decide) (by decide)
     (by decide) (by decide) (by decide) (by decide)⟩

/-- A detection bounding box ymin, xmin, ymax, xmax in the 0 to 1000
normalized coordinate space. -/
structure Box where
  ymin : Int
  xmin : Int
  ymax : Int
  xmax : Int
deriving DecidableEq, Inhabited

/-- isContained from shared/canvas-utils.js: box a is contained within or
equal to box b, all four edges within the extent of b padded by the
tolerance of 5 units. -/
def isContained (a b : Box) : Bool :=
  decide (a.xmin ≥ b.xmin - 5) && decide (a.xmax ≤ b.xmax + 5) &&
    decide (a.ymin ≥ b.ymin - 5) && decide (a.ymax ≤ b.ymax + 5)

/-- The inner loop body of the indicesToDrop computation in
cropAndStitchImage: index i is dropped when some j triggers the branch
(the break only ends the scan early and does not change membership in the
set). -/
def shouldDrop (boxes : List Box) (i : Nat) : Bool :=
  (List.range boxes.length).any fun j =>
    decide (i ≠ j) && isContained (boxes.getD i default) (boxes.getD j default) &&
      (isContained (boxes.getD j default) (boxes.getD i default) && decide (j < i) ||
        !isContained (boxes.getD j default) (boxes.getD i default))

/-- boxes.filter((box, i) => p i): an index-aware filter. -/
def filterIdx {α : Type} (p : Nat → Bool) : Nat → List α → List α
  | _, [] => []
  | i, a :: as => if p i then a :: filterIdx p (i + 1) as else filterIdx p (i + 1) as

/-- The containment-based deduplication of cropAndStitchImage (identical in
scripts/split.js and in the pdfService variant): drop every index marked by
shouldDrop, keeping the original order of the survivors. -/
def dedupBoxes (boxes : List Box) : List Box :=
  filterIdx (fun i => !shouldDrop boxes i) 0 boxes

lemma filterIdx_sublist {α : Type} (p : Nat → Bool) : ∀ (s : Nat) (l : List α),
    (filterIdx p s l).Sublist l := by
  intro s l
  induction l generalizing s with
  | nil => simp [filterIdx]
  | cons a as ih =>
    simp only [filterIdx]
    split
    · exact List.Sublist.cons₂ a (ih (s + 1))
    · exact List.Sublist.cons a (ih (s + 1))

lemma mem_filterIdx {α : Type} (p : Nat → Bool) (d : α) : ∀ (s : Nat) (l : List α) (x : α),
    x ∈ filterIdx p s l → ∃ k, k < l.length ∧ p (s + k) = true ∧ l.getD k d = x := by
  intro s l
  induction l generalizing s with
  | nil => simp [filterIdx]
  | cons a as ih =>
    intro x hx
    simp only [filterIdx] at hx
    by_cases hp : p s = true
    · rw [if_pos hp] at hx
      rcases List.mem_cons.mp hx with h | h
      · exact ⟨0, by simp, by simpa using hp, by simp [h]⟩
      · obtain ⟨k, hk, hpk, hget⟩ := ih (s + 1) x h
        exact ⟨k + 1, by simpa using hk, by simpa [Nat.add_assoc, Nat.add_comm 1 k] using hpk,
          by simpa using hget⟩
    · rw [if_neg hp] at hx
      obtain ⟨k, hk, hpk, hget⟩ := ih (s + 1) x hx
      exact ⟨k + 1, by simpa using hk, by simpa [Nat.add_assoc, Nat.add_comm 1 k] using hpk,
        by simpa using hget⟩

lemma filterIdx_pairwise {α : Type} (p : Nat → Bool) (d : α) (R : α → α → Prop) :
    ∀ (s : Nat) (l : List α),
    (∀ i j, i < j → j < l.length → p (s + i) = true → p (s + j) = true →
      R (l.getD i d) (l.getD j d)) →
    (filterIdx p s l).Pairwise R := by
  intro s l
  induction l generalizing s with
  | nil => simp [filterIdx]
  | cons a as ih =>
    intro H
    simp only [filterIdx]
    split
    · rename_i hp
      refine List.Pairwise.cons ?_ (ih (s + 1) ?_)
      · intro x hx
        obtain ⟨k, hk, hpk, hget⟩ := mem_filterIdx p d (s + 1) as x hx
        have hg2 : (a :: as).getD (k + 1) d = x := by simpa using hget
        have := H 0 (k + 1) (by omega) (by simpa using hk) (by simpa using hp)
          (by simpa [Nat.add_assoc, Nat.add_comm 1 k] using hpk)
        rw [hg2] at this
        exact this
      · intro i j hij hj hpi hpj
        have := H (i + 1) (j + 1) (by omega) (by simpa using hj)
          (by simpa [Nat.add_assoc, Nat.add_comm 1 i] using hpi)
          (by simpa [Nat.add_assoc, Nat.add_comm 1 j] using hpj)
        simpa using this
    · rename_i hp
      refine ih (s + 1) ?_
      intro i j hij hj hpi hpj
      have := H (i + 1) (j + 1) (by omega) (by simpa using hj)
        (by simpa [Nat.add_assoc, Nat.add_comm 1 i] using hpi)
        (by simpa [Nat.add_assoc, Nat.add_comm 1 j] using hpj)
      simpa using this

lemma shouldDrop_true_of (boxes : List Box) (i j : Nat) (hj : j < boxes.length)
    (htr : (decide (i ≠ j) && isContained (boxes.getD i default) (boxes.getD j default) &&
      (isContained (boxes.getD j default) (boxes.getD i default) && decide (j < i) ||
        !isContained (boxes.getD j default) (boxes.getD i default))) = true) :
    shouldDrop boxes i = true := by
  rw [shouldDrop, List.any_eq_true]
  exact ⟨j, List.mem_range.mpr hj, htr⟩

lemma shouldDrop_false_spec (boxes : List Box) (i : Nat) (h : shouldDrop boxes i = false)
    (j : Nat) (hj : j < boxes.length) (hij : i ≠ j)
    (hc : isContained (boxes.getD i default) (boxes.getD j default) = true) :
    isContained (boxes.getD j default) (boxes.getD i default) = true ∧ i < j := by
  by_cases hba : isContained (boxes.getD j default) (boxes.getD i default) = true
  · refine ⟨hba, ?_⟩
    by_contra hge
    have hji : j < i := by omega
    have htrue := shouldDrop_true_of boxes i j hj (by rw [hc, hba]; simp [hij, hji])
    simp [htrue] at h
  · exfalso
    have hba2 : isContained (boxes.getD j default) (boxes.getD i default) = false := by
      simpa using hba
    have htrue := shouldDrop_true_of boxes i j hj (by rw [hc, hba2]; simp [hij])
    simp [htrue] at h

/-- C2: after the containment-based deduplication in cropAndStitchImage no
surviving box is contained, per isContained with tolerance 5, in any other
surviving box; and of two mutually containing boxes exactly the
later-indexed one is dropped. -/
theorem c2_dedup_invariant :
    (∀ boxes : List Box, (dedupBoxes boxes).Pairwise
      (fun a b => isContained a b = false ∧ isContained b a = false)) ∧
    (∀ a b : Box, isContained a b = true → isContained b a = true →
      dedupBoxes [a, b] = [a]) := by
  constructor
  · intro boxes
    apply filterIdx_pairwise (fun i => !shouldDrop boxes i) default
    intro i j hij hj hpi hpj
    have hdi : shouldDrop boxes i = false := by simpa using hpi
    have hdj : shouldDrop boxes j = false := by simpa using hpj
    have hcji : isContained (boxes.getD j default) (boxes.getD i default) = false := by
      by_contra hc
      have hc2 : isContained (boxes.getD j default) (boxes.getD i default) = true := by
        simpa using hc
      have := shouldDrop_false_spec boxes j hdj i (by omega) (by omega) hc2
      omega
    have hcij : isContained (boxes.getD i default) (boxes.getD j default) = false := by
      by_contra hc
      have hc2 : isContained (boxes.getD i default) (boxes.getD j default) = true := by
        simpa using hc
      have := shouldDrop_false_spec boxes i hdi j hj (by omega) hc2
      rw [this.1] at hcji
      exact Bool.noConfusion hcji
    exact ⟨hcij, hcji⟩
  · intro a b hab hba
    have h0 : shouldDrop [a, b] 0 = false := by
      rw [shouldDrop]
      have hr : List.range ([a, b].length) = [0, 1] := rfl
      rw [hr]
      simp [hab, hba]
    have h1 : shouldDrop [a, b] 1 = true := by
      rw [shouldDrop]
      have hr : List.range ([a, b].length) = [0, 1] := rfl
      rw [hr]
      simp [hab, hba]
    rw [dedupBoxes]
    simp [filterIdx, h0, h1]

/-- C2 witness: two concrete near-duplicate boxes that mutually contain each
other within the tolerance; the dedup keeps exactly the first. -/
theorem c2_witness :
    isContained ⟨0, 0, 100, 100⟩ ⟨2, 2, 98, 98⟩ = true ∧
    isContained ⟨2, 2, 98, 98⟩ ⟨0, 0, 100, 100⟩ = true ∧
    dedupBoxes [⟨0, 0, 100, 100⟩, ⟨2, 2, 98, 98⟩] = [⟨0, 0, 100, 100⟩] :=
  ⟨by decide, by decide, c2_dedup_invariant.2 _ _ (by decide) (by decide)⟩

/-- getArea of cropAndStitch in the process-pdf script:
(b[2] - b[0]) * (b[3] - b[1]). -/
def getArea (b : Box) : Int := (b.ymax - b.ymin) * (b.xmax - b.xmin)

/-- Stable insertion used to model the JS Array sort with comparator
(a, b) => getArea(b) - getArea(a): an element is placed after every element
that compares less-or-equal before it.  JS sort is stable (TimSort), and a
stable sort is determined by the comparator, so this insertion sort computes
the same list. -/
def insertByArea (a : Box) : List Box → List Box
  | [] => [a]
  | b :: bs => if getArea a ≤ getArea b then b :: insertByArea a bs else a :: b :: bs

/-- sortedBySize of cropAndStitch: sort descending by area, stably. -/
def sortedBySize (l : List Box) : List Box :=
  l.foldl (fun acc b => insertByArea b acc) []

/-- The greedy keep loop of cropAndStitch: walk the size-sorted list and keep
a box unless it is contained in an already kept box. -/
def greedyKeep (l : List Box) : List Box :=
  l.foldl (fun kept box => if kept.any fun k => isContained box k then kept else kept ++ [box]) []

/-- The X center of a box, used by the final sort of cropAndStitch. -/
def centerX (b : Box) : ℚ := ((b.xmin : ℚ) + (b.xmax : ℚ)) / 2

/-- Math.abs on rationals, written as an executable conditional. -/
def qabs (q : ℚ) : ℚ := if q < 0 then -q else q

/-- The final sort comparator of cropAndStitch: order by column center when
the centers differ by more than 150, else by ymin. -/
def csCmp (a b : Box) : ℚ :=
  if 150 < qabs (centerX a - centerX b) then centerX a - centerX b
  else ((a.ymin : ℚ) - (b.ymin : ℚ))

/-- Stable insertion for the final sort of cropAndStitch. -/
def insertByCs (a : Box) : List Box → List Box
  | [] => [a]
  | b :: bs => if csCmp b a ≤ 0 then b :: insertByCs a bs else a :: b :: bs

/-- The final column-then-row sort of cropAndStitch. -/
def finalSortCs (l : List Box) : List Box :=
  l.foldl (fun acc b => insertByCs b acc) []

/-- The deduplication step of cropAndStitch in the process-pdf script:
sort by area descending, keep non-redundant boxes greedily, then sort the
survivors by column center and ymin.  Unlike dedupBoxes, this reorders. -/
def dedupCropAndStitch (boxes : List Box) : List Box :=
  finalSortCs (greedyKeep (sortedBySize boxes))

/-- The right column box of the C5 counterexample: center x 250. -/
def boxRight : Box := ⟨0, 200, 100, 300⟩

/-- The lower left box of the C5 counterexample: center x 50. -/
def boxLeft : Box := ⟨500, 0, 600, 100⟩

/-- C5 counterexample: the deduplication in cropAndStitch (process-pdf
script) does reorder.  On input boxRight then boxLeft, both disjoint and
both kept, the final column sort outputs boxLeft before boxRight, so the
survivors are not a subsequence of the input in the original order. -/
theorem c5_counterexample_cropAndStitch_reorders :
    dedupCropAndStitch [boxRight, boxLeft] = [boxLeft, boxRight] ∧
    ¬ (dedupCropAndStitch [boxRight, boxLeft]).Sublist [boxRight, boxLeft] := by
  have he : dedupCropAndStitch [boxRight, boxLeft] = [boxLeft, boxRight] := by
    simp only [dedupCropAndStitch, sortedBySize, greedyKeep, finalSortCs, List.foldl,
      insertByArea, insertByCs, csCmp, centerX, qabs, getArea, boxRight, boxLeft,
      isContained, List.any_nil, List.any_cons]
    norm_num
  refine ⟨he, ?_⟩
  rw [he]
  intro hsub
  have hlen : ([boxLeft, boxRight] : List Box).length = ([boxRight, boxLeft] : List Box).length :=
    rfl
  have := hsub.eq_of_length hlen
  exact absurd this (by decide)

/-- C5 amended: the indicesToDrop deduplication used by cropAndStitchImage
(identically in scripts/split.js and the pdfService variant) never reorders:
the surviving boxes are a subsequence of the input list.  The cropAndStitch
implementation in the process-pdf script instead re-sorts the survivors and
does not preserve the input order. -/
theorem c5_dedupBoxes_preserves_order (boxes : List Box) :
    (dedupBoxes boxes).Sublist boxes :=
  filterIdx_sublist _ 0 boxes

/-- The crop and canvas padding settings of cropAndStitchImage. -/
structure CropSettings where
  cropPadding : ℚ
  canvasPaddingLeft : ℚ
  canvasPaddingRight : ℚ
  canvasPaddingY : ℚ

/-- Math.floor of a JS number used as a canvas dimension; negative values
are clamped to zero (createCanvas would reject them). -/
def qToNatFloor (q : ℚ) : Nat := (⌊q⌋).toNat

/-- One processed fragment of cropAndStitchImage: the cropped canvas, its
edge-peel trim rectangle, and the absolute ink x position
absInkX = cropX + trim.x. -/
structure Frag where
  canvas : Img
  trim : Rect
  absInkX : ℚ

/-- The geometry and trim of one fragment, from the map body in
cropAndStitchImage.  The pixel content written by drawImage comes from the
external canvas library and is supplied by the render parameter; the canvas
dimensions Math.floor w and Math.floor h are fixed by the source. -/
def processFragment (render : ℚ → ℚ → ℚ → ℚ → Nat → Nat → Pixel) (s : CropSettings)
    (W H : ℚ) (b : Box) : Frag :=
  let x : ℚ := max 0 ((b.xmin : ℚ) / 1000 * W - s.cropPadding)
  let y : ℚ := max 0 ((b.ymin : ℚ) / 1000 * H - s.cropPadding)
  let rawW : ℚ := ((b.xmax : ℚ) - (b.xmin : ℚ)) / 1000 * W + s.cropPadding * 2
  let rawH : ℚ := ((b.ymax : ℚ) - (b.ymin : ℚ)) / 1000 * H + s.cropPadding * 2
  let w : ℚ := min (W - x) rawW
  let h : ℚ := min (H - y) rawH
  let canvas : Img := ⟨qToNatFloor w, qToNatFloor h, render x y w h⟩
  let trim := getTrimmedBounds canvas
  ⟨canvas, trim, x + (trim.x : ℚ)⟩

/-- processedFragments of cropAndStitchImage in scripts/split.js: the map
over the deduplicated boxes.  The map callback always returns an object, so
the trailing .filter(Boolean) keeps every element and is the identity. -/
def processedFragments (render : ℚ → ℚ → ℚ → ℚ → Nat → Nat → Pixel) (s : CropSettings)
    (W H : ℚ) (boxes : List Box) : List Frag :=
  (dedupBoxes boxes).map (processFragment render s W H)

/-- Math.min over a spread nonempty list. -/
def listMinQ : List ℚ → ℚ
  | [] => 0
  | a :: as => as.foldl min a

/-- Math.max over a spread nonempty list. -/
def listMaxQ : List ℚ → ℚ
  | [] => 0
  | a :: as => as.foldl max a

/-- The fixed vertical gap between stacked fragments. -/
def fragmentGap : ℚ := 10

/-- cropAndStitchImage of scripts/split.js, reduced to the data the claims
are about: the null or non-null outcome and the final canvas width and
height.  The composited pixel drawing itself adds nothing to those. -/
def cropAndStitchImage (render : ℚ → ℚ → ℚ → ℚ → Nat → Nat → Pixel) (s : CropSettings)
    (W H : ℚ) (boxes : List Box) : Option (ℚ × ℚ) :=
  if boxes.isEmpty then none
  else
    let frags := processedFragments render s W H boxes
    if frags.isEmpty then none
    else
      let minAbsInkX := listMinQ (frags.map fun f => f.absInkX)
      let maxRightEdge := listMaxQ (frags.map fun f => f.absInkX - minAbsInkX + (f.trim.w : ℚ))
      let finalWidth := maxRightEdge + s.canvasPaddingLeft + s.canvasPaddingRight
      let totalContentHeight := (frags.map fun f => (f.trim.h : ℚ)).sum +
        fragmentGap * ((frags.length - 1 : ℕ) : ℚ)
      let finalHeight := totalContentHeight + s.canvasPaddingY * 2
      some (finalWidth, finalHeight)

lemma foldl_min_mem (l : List ℚ) (a : ℚ) : l.foldl min a ∈ a :: l := by
  induction l generalizing a with
  | nil => simp
  | cons b bs ih =>
    simp only [List.foldl_cons]
    rcases List.mem_cons.mp (ih (min a b)) with h | h
    · rcases min_choice a b with hm | hm
      · exact List.mem_cons.mpr (Or.inl (h.trans hm))
      · exact List.mem_cons.mpr (Or.inr (List.mem_cons.mpr (Or.inl (h.trans hm))))
    · simp [h]

lemma foldl_min_le (l : List ℚ) (a : ℚ) : ∀ x ∈ a :: l, l.foldl min a ≤ x := by
  induction l generalizing a with
  | nil => simp
  | cons b bs ih =>
    intro x hx
    simp only [List.foldl_cons]
    rcases List.mem_cons.mp hx with h | h
    · calc bs.foldl min (min a b) ≤ min a b := ih (min a b) _ (by simp)
        _ ≤ a := min_le_left _ _
        _ = x := h.symm
    · rcases List.mem_cons.mp h with h2 | h2
      · calc bs.foldl min (min a b) ≤ min a b := ih (min a b) _ (by simp)
          _ ≤ b := min_le_right _ _
          _ = x := h2.symm
      · exact ih (min a b) x (by simp [h2])

lemma foldl_max_mem (l : List ℚ) (a : ℚ) : l.foldl max a ∈ a :: l := by
  induction l generalizing a with
  | nil => simp
  | cons b bs ih =>
    simp only [List.foldl_cons]
    rcases List.mem_cons.mp (ih (max a b)) with h | h
    · rcases max_choice a b with hm | hm
      · exact List.mem_cons.mpr (Or.inl (h.trans hm))
      · exact List.mem_cons.mpr (Or.inr (List.mem_cons.mpr (Or.inl (h.trans hm))))
    · simp [h]

lemma le_foldl_max (l : List ℚ) (a : ℚ) : ∀ x ∈ a :: l, x ≤ l.foldl max a := by
  induction l generalizing a with
  | nil => simp
  | cons b bs ih =>
    intro x hx
    simp only [List.foldl_cons]
    rcases List.mem_cons.mp hx with h | h
    · calc x = a := h
        _ ≤ max a b := le_max_left _ _
        _ ≤ bs.foldl max (max a b) := ih (max a b) _ (by simp)
    · rcases List.mem_cons.mp h with h2 | h2
      · calc x = b := h2
          _ ≤ max a b := le_max_right _ _
          _ ≤ bs.foldl max (max a b) := ih (max a b) _ (by simp)
      · exact ih (max a b) x (by simp [h2])

lemma listMinQ_mem (l : List ℚ) (h : l ≠ []) : listMinQ l ∈ l := by
  cases l with
  | nil => exact absurd rfl h
  | cons a as => exact foldl_min_mem as a

lemma listMinQ_le (l : List ℚ) (x : ℚ) (hx : x ∈ l) : listMinQ l ≤ x := by
  cases l with
  | nil => simp at hx
  | cons a as => exact foldl_min_le as a x hx

lemma listMaxQ_mem (l : List ℚ) (h : l ≠ []) : listMaxQ l ∈ l := by
  cases l with
  | nil => exact absurd rfl h
  | cons a as => exact foldl_max_mem as a

lemma le_listMaxQ (l : List ℚ) (x : ℚ) (hx : x ∈ l) : x ≤ listMaxQ l := by
  cases l with
  | nil => simp at hx
  | cons a as => exact le_foldl_max as a x hx

/-- C3: compositor width law.  For every non-empty processed fragment list
the final canvas width returned by cropAndStitchImage is exactly
max over fragments of (absInkX - minInkX + trim width) plus the configured
left and right padding, where minInkX is the least absInkX (attained and a
lower bound). -/
theorem c3_compositor_width_law (render : ℚ → ℚ → ℚ → ℚ → Nat → Nat → Pixel)
    (s : CropSettings) (W H : ℚ) (boxes : List Box)
    (hne : processedFragments render s W H boxes ≠ []) :
    ∃ minInk wf hf,
      cropAndStitchImage render s W H boxes = some (wf, hf) ∧
      (∃ f ∈ processedFragments render s W H boxes, minInk = f.absInkX) ∧
      (∀ f ∈ processedFragments render s W H boxes, minInk ≤ f.absInkX) ∧
      (∃ f ∈ processedFragments render s W H boxes,
        wf = f.absInkX - minInk + (f.trim.w : ℚ) +
          s.canvasPaddingLeft + s.canvasPaddingRight) ∧
      (∀ f ∈ processedFragments render s W H boxes,
        f.absInkX - minInk + (f.trim.w : ℚ) +
          s.canvasPaddingLeft + s.canvasPaddingRight ≤ wf) := by
  have hboxes : boxes.isEmpty = false := by
    cases boxes with
    | nil => simp [processedFragments, dedupBoxes, filterIdx] at hne
    | cons a as => rfl
  have hfragsE : (processedFragments render s W H boxes).isEmpty = false := by
    cases hq : processedFragments render s W H boxes with
    | nil => exact absurd hq hne
    | cons a as => rfl
  have hmapne : (processedFragments render s W H boxes).map (fun f => f.absInkX) ≠ [] := by
    intro h
    exact hne (List.map_eq_nil_iff.mp h)
  refine ⟨listMinQ ((processedFragments render s W H boxes).map fun f => f.absInkX),
    listMaxQ ((processedFragments render s W H boxes).map fun f =>
      f.absInkX - listMinQ ((processedFragments render s W H boxes).map fun f => f.absInkX) +
        (f.trim.w : ℚ)) + s.canvasPaddingLeft + s.canvasPaddingRight,
    ((processedFragments render s W H boxes).map fun f => (f.trim.h : ℚ)).sum +
      fragmentGap * (((processedFragments render s W H boxes).length - 1 : ℕ) : ℚ) +
      s.canvasPaddingY * 2, ?_, ?_, ?_, ?_, ?_⟩
  · simp only [cropAndStitchImage, hboxes, Bool.false_eq_true, if_false, hfragsE]
  · obtain ⟨f, hfm, he⟩ := List.mem_map.mp
      (listMinQ_mem ((processedFragments render s W H boxes).map fun f => f.absInkX) hmapne)
    exact ⟨f, hfm, he.symm⟩
  · intro f hf
    exact listMinQ_le _ _ (List.mem_map_of_mem _ hf)
  · have hmapne2 : (processedFragments render s W H boxes).map (fun f =>
        f.absInkX - listMinQ ((processedFragments render s W H boxes).map fun f => f.absInkX) +
          (f.trim.w : ℚ)) ≠ [] := by
      intro h
      exact hne (List.map_eq_nil_iff.mp h)
    obtain ⟨f, hfm, he⟩ := List.mem_map.mp (listMaxQ_mem _ hmapne2)
    exact ⟨f, hfm, by rw [he]⟩
  · intro f hf
    have := le_listMaxQ _ _ (List.mem_map_of_mem (fun f =>
      f.absInkX - listMinQ ((processedFragments render s W H boxes).map fun f => f.absInkX) +
        (f.trim.w : ℚ)) hf)
    simp only at this
    linarith

/-- The render function of a blank page: every sampled pixel is white. -/
def whiteRender : ℚ → ℚ → ℚ → ℚ → Nat → Nat → Pixel := fun _ _ _ _ _ _ => whitePixel

/-- Padding settings that are all zero. -/
def zeroSettings : CropSettings := ⟨0, 0, 0, 0⟩

/-- C3 witness: a single full-width box on a blank 10 by 10 page yields one
fragment, and the width law holds for it concretely. -/
theorem c3_witness :
    processedFragments whiteRender zeroSettings 10 10 [⟨0, 0, 1000, 1000⟩] ≠ [] ∧
    ∃ minInk wf hf,
      cropAndStitchImage whiteRender zeroSettings 10 10 [⟨0, 0, 1000, 1000⟩] = some (wf, hf) ∧
      (∃ f ∈ processedFragments whiteRender zeroSettings 10 10 [⟨0, 0, 1000, 1000⟩],
        minInk = f.absInkX) ∧
      (∀ f ∈ processedFragments whiteRender zeroSettings 10 10 [⟨0, 0, 1000, 1000⟩],
        minInk ≤ f.absInkX) ∧
      (∃ f ∈ processedFragments whiteRender zeroSettings 10 10 [⟨0, 0, 1000, 1000⟩],
        wf = f.absInkX - minInk + (f.trim.w : ℚ) + zeroSettings.canvasPaddingLeft +
          zeroSettings.canvasPaddingRight) ∧
      (∀ f ∈ processedFragments whiteRender zeroSettings 10 10 [⟨0, 0, 1000, 1000⟩],
        f.absInkX - minInk + (f.trim.w : ℚ) + zeroSettings.canvasPaddingLeft +
          zeroSettings.canvasPaddingRight ≤ wf) := by
  have hne : processedFragments whiteRender zeroSettings 10 10 [⟨0, 0, 1000, 1000⟩] ≠ [] := by
    simp [processedFragments, dedupBoxes, shouldDrop, filterIdx]
  exact ⟨hne, c3_compositor_width_law whiteRender zeroSettings 10 10 [⟨0, 0, 1000, 1000⟩] hne⟩

/-- The fixed SETTINGS of the process-pdf script: cropPadding 25,
canvasPaddingLeft 10, canvasPaddingRight 30, canvasPaddingY 20. -/
def mjsSettings : CropSettings := ⟨25, 10, 30, 20⟩

/-- processedFragments of cropAndStitch in the process-pdf script: the same
fragment geometry, but filtered by trim.w > 0 and trim.h > 0. -/
def processedFragmentsCS (render : ℚ → ℚ → ℚ → ℚ → Nat → Nat → Pixel)
    (W H : ℚ) (boxes : List Box) : List Frag :=
  ((dedupCropAndStitch boxes).map (processFragment render mjsSettings W H)).filter
    fun f => decide (0 < f.trim.w) && decide (0 < f.trim.h)

/-- cropAndStitch of the process-pdf script, reduced to the null or non-null
outcome and the final canvas dimensions. -/
def cropAndStitch (render : ℚ → ℚ → ℚ → ℚ → Nat → Nat → Pixel)
    (W H : ℚ) (boxes : List Box) : Option (ℚ × ℚ) :=
  if boxes.isEmpty then none
  else
    let frags := processedFragmentsCS render W H boxes
    if frags.isEmpty then none
    else
      let maxFragmentWidth := listMaxQ (frags.map fun f => (f.trim.w : ℚ))
      let finalWidth := maxFragmentWidth + mjsSettings.canvasPaddingLeft +
        mjsSettings.canvasPaddingRight
      let totalContentHeight := (frags.map fun f => (f.trim.h : ℚ)).sum +
        fragmentGap * ((frags.length - 1 : ℕ) : ℚ)
      let finalHeight := totalContentHeight + mjsSettings.canvasPaddingY * 2
      some (finalWidth, finalHeight)

/-- A box whose four coordinates coincide: its crop rectangle is degenerate
when the crop padding is zero. -/
def degenerateBox : Box := ⟨0, 0, 0, 0⟩

/-- C4 counterexample: in cropAndStitchImage of scripts/split.js a fragment
with zero trimmed width and height is NOT dropped (.filter(Boolean) keeps
every object), and the function still returns a non-null final image: with
zero crop padding the degenerate box produces the single fragment with trim
0 0 0 0, yet the result is some (0, 0) rather than none. -/
theorem c4_counterexample_zero_fragment_not_dropped :
    ((processedFragments whiteRender zeroSettings 1000 1000 [degenerateBox]).map
      fun f => f.trim) = [⟨0, 0, 0, 0⟩] ∧
    cropAndStitchImage whiteRender zeroSettings 1000 1000 [degenerateBox] = some (0, 0) := by
  have hde : dedupBoxes [degenerateBox] = [degenerateBox] := by decide
  have htrim : (processFragment whiteRender zeroSettings 1000 1000 degenerateBox).trim =
      ⟨0, 0, 0, 0⟩ := by
    simp only [processFragment, degenerateBox, zeroSettings, qToNatFloor, getTrimmedBounds]
    norm_num
  have habs : (processFragment whiteRender zeroSettings 1000 1000 degenerateBox).absInkX = 0 := by
    simp only [processFragment, degenerateBox, zeroSettings, qToNatFloor, getTrimmedBounds]
    norm_num
  constructor
  · simp [processedFragments, hde, htrim]
  · simp only [cropAndStitchImage, processedFragments, hde, List.map_cons, List.map_nil,
      List.isEmpty_cons, List.isEmpty_nil, Bool.false_eq_true, if_false, listMinQ, listMaxQ,
      List.foldl_nil, List.sum_cons, List.sum_nil, htrim, habs]
    norm_num [fragmentGap, zeroSettings]

/-- C4 amended: it is cropAndStitch in the process-pdf script that drops
every fragment whose trimmed width or height is zero before composition
(every surviving fragment has positive trim), and returns null without
raising when the filter empties the fragment list.  In cropAndStitchImage
of scripts/split.js the .filter(Boolean) drops nothing, as the
counterexample shows. -/
theorem c4_cropAndStitch_drops_degenerate (render : ℚ → ℚ → ℚ → ℚ → Nat → Nat → Pixel)
    (W H : ℚ) (boxes : List Box) :
    (∀ f ∈ processedFragmentsCS render W H boxes, 0 < f.trim.w ∧ 0 < f.trim.h) ∧
    (processedFragmentsCS render W H boxes = [] → cropAndStitch render W H boxes = none) := by
  constructor
  · intro f hf
    have := List.of_mem_filter hf
    simpa [Bool.and_eq_true, decide_eq_true_eq] using this
  · intro hempty
    rw [cropAndStitch]
    by_cases hb : boxes.isEmpty
    · simp [hb]
    · simp [hb, hempty]

/-- C4 witness: on a zero-size page the degenerate box yields a zero-area
crop, the fragment is filtered out, the list empties, and cropAndStitch
returns none; the amended theorem applies concretely. -/
theorem c4_witness :
    processedFragmentsCS whiteRender 0 0 [degenerateBox] = [] ∧
    cropAndStitch whiteRender 0 0 [degenerateBox] = none := by
  have hd : dedupCropAndStitch [degenerateBox] = [degenerateBox] := by
    simp [dedupCropAndStitch, sortedBySize, greedyKeep, finalSortCs, insertByArea, insertByCs]
  have htrim : (processFragment whiteRender mjsSettings 0 0 degenerateBox).trim =
      ⟨0, 0, 0, 0⟩ := by
    simp only [processFragment, degenerateBox, mjsSettings, qToNatFloor, getTrimmedBounds]
    norm_num
  have hempty : processedFragmentsCS whiteRender 0 0 [degenerateBox] = [] := by
    simp only [processedFragmentsCS, hd, List.map_cons, List.map_nil]
    simp [List.filter, htrim]
  exact ⟨hempty, (c4_cropAndStitch_drops_degenerate whiteRender 0 0 [degenerateBox]).2 hempty⟩

/-- White test of trimWhitespace: all three channels at least 250 (alpha is
not consulted). -/
def isWhitePixel (p : Pixel) : Bool :=
  decide (p.r ≥ 250) && decide (p.g ≥ 250) && decide (p.b ≥ 250)

/-- rowIsAllWhite of trimWhitespace. -/
def rowIsAllWhite (img : Img) (y : Nat) : Bool :=
  (List.range img.w).all fun x => isWhitePixel (img.px x y)

/-- colIsAllWhite of trimWhitespace. -/
def colIsAllWhite (img : Img) (x : Nat) : Bool :=
  (List.range img.h).all fun y => isWhitePixel (img.px x y)

/-- WhitespaceTrimmer, from trimWhitespace in shared/canvas-utils.js: trims
entire white rows and columns from each edge, with no safety cap (top is
bounded only by the height, bottom by top, left by the width, right by
left). -/
def trimWhitespace (img : Img) : Rect :=
  if img.w = 0 ∨ img.h = 0 then ⟨0, 0, 0, 0⟩
  else
    let top := peelUp (rowIsAllWhite img) img.h 0
    let bottom := peelDown (rowIsAllWhite img) top img.h img.h
    let left := peelUp (colIsAllWhite img) img.w 0
    let right := peelDown (colIsAllWhite img) left img.w img.w
    ⟨left, top, right - left, bottom - top⟩

/-- trimAndPadImage of scripts/split.js: trim whitespace and re-pad with a
uniform padding on a white canvas; when the content bounding box is empty
the input image is returned unchanged (same pixels, original dimensions).
The base64 JPEG round trip of the source is modelled as the identity on
pixels. -/
def trimAndPadImage (img : Img) (padding : Nat) : Img :=
  let bounds := trimWhitespace img
  if bounds.w = 0 ∨ bounds.h = 0 then img
  else
    let newWidth := bounds.w + padding * 2
    let newHeight := bounds.h + padding * 2
    ⟨newWidth, newHeight, fun x y =>
      if padding ≤ x ∧ x < padding + bounds.w ∧ padding ≤ y ∧ y < padding + bounds.h then
        img.px (bounds.x + (x - padding)) (bounds.y + (y - padding))
      else whitePixel⟩

/-- C9: when whitespace trimming finds no content (the content bounding box
has zero width or zero height), trimAndPadImage returns the input image
unchanged instead of building a padded canvas or failing. -/
theorem c9_trimAndPadImage_empty_returns_input (img : Img) (padding : Nat)
    (h : (trimWhitespace img).w = 0 ∨ (trimWhitespace img).h = 0) :
    trimAndPadImage img padding = img := by
  rw [trimAndPadImage]
  exact if_pos h

/-- A fully white 2 by 2 image. -/
def whiteImg2 : Img := ⟨2, 2, fun _ _ => whitePixel⟩

/-- C9 witness: a fully white image has an empty content box and passes
through trimAndPadImage unchanged. -/
theorem c9_witness :
    ((trimWhitespace whiteImg2).w = 0 ∨ (trimWhitespace whiteImg2).h = 0) ∧
    trimAndPadImage whiteImg2 10 = whiteImg2 :=
  ⟨by decide, c9_trimAndPadImage_empty_returns_input whiteImg2 10 (by decide)⟩

/-- mergeBase64Images of scripts/split.js: both images are fully whitespace
trimmed, the canvas is max of the trimmed widths by the sum of the trimmed
heights plus the (possibly negative) gap clamped at zero, the trimmed top is
drawn left-aligned at y 0 and the trimmed bottom left-aligned at
y = topHeight + gap, painted over the top where they overlap. -/
def mergeBase64Images (top bottom : Img) (gap : Int) : Img :=
  let tb := trimWhitespace top
  let bb := trimWhitespace bottom
  let width := max tb.w bb.w
  let height := (max 0 ((tb.h : Int) + (bb.h : Int) + gap)).toNat
  let bottomY : Int := (tb.h : Int) + gap
  ⟨width, height, fun x y =>
    if x < bb.w ∧ bottomY ≤ (y : Int) ∧ (y : Int) < bottomY + (bb.h : Int) then
      bottom.px (bb.x + x) (bb.y + ((y : Int) - bottomY).toNat)
    else if x < tb.w ∧ y < tb.h then top.px (tb.x + x) (tb.y + y)
    else whitePixel⟩

/-- One accumulated QuestionImage of processPdf. -/
structure Question where
  id : String
  pageNumber : Nat
  dataUrl : Img
  originalDataUrl : Option Img

/-- The per-detection body of the page loop in processPdf (scripts/split.js):
given the composited final and original images of one detection, either skip
(null final), merge a continuation into the last question in place, warn and
skip an orphan continuation, or append a new question.  The returned Bool
records whether the orphan-continuation warning was emitted.  The function
is total: no exception is raised on any branch. -/
def processDetection (allQuestions : List Question) (id : String) (pageNum : Nat)
    (mergeOverlap : Int) (final original : Option Img) : List Question × Bool :=
  match final with
  | none => (allQuestions, false)
  | some f =>
    if id = "continuation" then
      match allQuestions.getLast? with
      | none => (allQuestions, true)
      | some lastQ =>
        let merged := mergeBase64Images lastQ.dataUrl f (-mergeOverlap)
        let mergedOrig :=
          match lastQ.originalDataUrl, original with
          | some lo, some o => some (mergeBase64Images lo o (-mergeOverlap))
          | lo, _ => lo
        (allQuestions.dropLast ++
          [{ lastQ with dataUrl := merged, originalDataUrl := mergedOrig }], false)
    else (allQuestions ++ [⟨id, pageNum, f, original⟩], false)

/-- C6: a continuation detection arriving while the accumulated question
list is empty is discarded with a warning: the question list stays empty (no
QuestionImage is created or modified), exactly one warning is recorded, and
no exception is raised (the embedded step is a total function). -/
theorem c6_orphan_continuation_discarded (pageNum : Nat) (mergeOverlap : Int)
    (f : Img) (original : Option Img) :
    processDetection [] "continuation" pageNum mergeOverlap (some f) original = ([], true) := by
  simp [processDetection]

/-- The scheduler state of processBatch in scripts/batch-process.js: the
next queue index and the activeCount counter. -/
structure SchedState where
  idx : Nat
  active : Nat
deriving DecidableEq

/-- One transition of the processBatch dispatch machinery.  A start step is
one iteration of the dispatch while loop (guarded by activeCount <
concurrency and index < total, then index++ and activeCount++); a finish
step is the .finally of a settled job (activeCount--), after which the loop
is re-entered.  Every interleaving the single-threaded event loop can
produce is a sequence of these steps. -/
inductive SchedStep (c total : Nat) : SchedState → SchedState → Prop
  | start (i a : Nat) : a < c → i < total → SchedStep c total ⟨i, a⟩ ⟨i + 1, a + 1⟩
  | finish (i a : Nat) : SchedStep c total ⟨i, a + 1⟩ ⟨i, a⟩

/-- States of processBatch reachable from the initial state (index 0, no
active jobs). -/
inductive SchedReach (c total : Nat) : SchedState → Prop
  | init : SchedReach c total ⟨0, 0⟩
  | step (s t : SchedState) : SchedReach c total s → SchedStep c total s t →
      SchedReach c total t

/-- C7: scheduler concurrency bound.  In every reachable state of the
processBatch dispatch loop the activeCount never exceeds the concurrency
limit: at no point are more than concurrency jobs simultaneously running. -/
theorem c7_processBatch_concurrency_bound (c total : Nat) (s : SchedState)
    (h : SchedReach c total s) : s.active ≤ c := by
  induction h with
  | init => exact Nat.zero_le c
  | step s t _ hstep ih =>
    cases hstep with
    | start i a ha hi => exact ha
    | finish i a => exact Nat.le_of_succ_le (by simpa using ih)

/-- C7 witness: with concurrency 2 and 5 jobs, the state after one start
step is reachable and its active count is within the bound. -/
theorem c7_witness : SchedReach 2 5 ⟨1, 1⟩ ∧ (SchedState.mk 1 1).active ≤ 2 := by
  have hreach : SchedReach 2 5 ⟨1, 1⟩ :=
    SchedReach.step _ _ SchedReach.init (SchedStep.start 0 0 (by omega) (by omega))
  exact ⟨hreach, c7_processBatch_concurrency_bound 2 5 ⟨1, 1⟩ hreach⟩

/-- Why the auto-retry loop of main in scripts/batch-process.js ended. -/
inductive StopReason where
  | allProcessed
  | success
  | stagnation
  | maxRoundsReached
deriving DecidableEq

/-- The auto-retry round loop of main in scripts/batch-process.js, without
interruption.  pend r is the number of pending files round r would see and
fail r the failure count its batch reports (both determined by the external
file system and jobs).  The fuel is maxRounds + 1 - round, so fuel 0 is the
loop guard roundNumber <= maxRounds failing.  Returns the number of rounds
that ran the batch and the stop reason.  A zero pending count stops before
processing (break: all files already processed, merged here with the
empty-directory return); zero failures stop with success; a failure count
equal to the previous rounds count stops with stagnation before the round
counter advances. -/
def roundLoop (pend fail : Nat → Nat) : Nat → Nat → Int → Nat → Nat × StopReason
  | 0, _, _, executed => (executed, StopReason.maxRoundsReached)
  | fuel + 1, round, prev, executed =>
    if pend round = 0 then (executed, StopReason.allProcessed)
    else if 0 < fail round then
      if (fail round : Int) = prev then (executed + 1, StopReason.stagnation)
      else roundLoop pend fail fuel (round + 1) (fail round) (executed + 1)
    else (executed + 1, StopReason.success)

/-- maxRounds of main in scripts/batch-process.js. -/
def maxRounds : Nat := 10

/-- The whole RoundController: roundNumber starts at 1,
previousFailedCount at -1. -/
def runRoundController (pend fail : Nat → Nat) : Nat × StopReason :=
  roundLoop pend fail maxRounds 1 (-1) 0

lemma roundLoop_fst_le (pend fail : Nat → Nat) :
    ∀ (fuel round : Nat) (prev : Int) (executed : Nat),
    (roundLoop pend fail fuel round prev executed).1 ≤ executed + fuel := by
  intro fuel
  induction fuel with
  | zero => intro round prev executed; simp [roundLoop]
  | succ n ih =>
    intro round prev executed
    rw [roundLoop]
    split
    · omega
    · split
      · split
        · omega
        · have := ih (round + 1) (fail round) (executed + 1)
          omega
      · omega

/-- C8: round termination.  The auto-retry loop runs at most maxRounds (10)
rounds for every pending profile and failure profile, and it stops with the
stagnation reason as soon as a round reports a nonzero failure count equal
to the previous rounds count, having executed just that one more round: a
normal stop, not an error. -/
theorem c8_round_termination :
    (∀ pend fail : Nat → Nat, (runRoundController pend fail).1 ≤ maxRounds) ∧
    (∀ (pend fail : Nat → Nat) (fuel round : Nat) (prev : Int) (executed : Nat),
      0 < fuel → pend round ≠ 0 → 0 < fail round → (fail round : Int) = prev →
      roundLoop pend fail fuel round prev executed = (executed + 1, StopReason.stagnation)) := by
  constructor
  · intro pend fail
    have := roundLoop_fst_le pend fail maxRounds 1 (-1) 0
    simpa [runRoundController] using this
  · intro pend fail fuel round prev executed hfuel hpend hfail heq
    cases fuel with
    | zero => omega
    | succ n =>
      rw [roundLoop]
      rw [if_neg hpend, if_pos hfail, if_pos heq]

/-- C8 witness: with one pending file every round and a constant failure
count of 3, the controller runs the first round (3 differs from the initial
-1), then stops as stagnation on the second round; both conjuncts of the
termination theorem apply concretely. -/
theorem c8_witness :
    roundLoop (fun _ => 1) (fun _ => 3) 9 2 3 1 = (2, StopReason.stagnation) ∧
    (runRoundController (fun _ => 1) (fun _ => 3)).1 ≤ maxRounds :=
  ⟨c8_round_termination.2 (fun _ => 1) (fun _ => 3) 9 2 3 1 (by omega) (by decide)
      (by decide) (by decide),
    c8_round_termination.1 (fun _ => 1) (fun _ => 3)⟩

/-- One entry of the failed map of the batch state: attempt count and last
error message (the timestamp of the source comes from the external clock
and carries no information for the claims). -/
structure FailEntry where
  attempts : Nat
  lastError : String
deriving DecidableEq

/-- The persisted batch state of scripts/batch-process.js: the completed
list and the failed map, the latter modelled as an association list with
unique keys. -/
structure BatchState where
  completed : List String
  failed : List (String × FailEntry)
deriving DecidableEq

/-- state.failed[path] = entry: update the entry in place when the key
exists, append it otherwise. -/
def setFailed (failed : List (String × FailEntry)) (k : String) (v : FailEntry) :
    List (String × FailEntry) :=
  if failed.any fun p => p.1 = k then
    failed.map fun p => if p.1 = k then (k, v) else p
  else failed ++ [(k, v)]

/-- delete state.failed[path]. -/
def delFailed (failed : List (String × FailEntry)) (k : String) :
    List (String × FailEntry) :=
  failed.filter fun p => p.1 ≠ k

/-- The attempt loop of processWithRetry in scripts/batch-process.js.
outcome attempt tells whether the processPdf call of that attempt succeeds
(determined by the external pipeline).  On success the path is appended to
completed and deleted from failed, the state is persisted (saveState writes
the returned value) and the loop returns success; on failure the failed
entry is upserted and the loop retries until maxRetries.  The fuel is the
number of attempts left. -/
def processWithRetryGo (outcome : Nat → Bool) (pdfPath : String) :
    Nat → Nat → BatchState → BatchState × Bool
  | 0, _, st => (st, false)
  | fuel + 1, attempt, st =>
    if outcome attempt then
      ({ completed := st.completed ++ [pdfPath],
         failed := delFailed st.failed pdfPath }, true)
    else
      processWithRetryGo outcome pdfPath fuel (attempt + 1)
        { completed := st.completed,
          failed := setFailed st.failed pdfPath ⟨attempt, "error"⟩ }

/-- processWithRetry: attempts run from 1 to maxRetries. -/
def processWithRetry (outcome : Nat → Bool) (pdfPath : String) (maxRetries : Nat)
    (st : BatchState) : BatchState × Bool :=
  processWithRetryGo outcome pdfPath maxRetries 1 st

lemma processWithRetryGo_success (outcome : Nat → Bool) (pdfPath : String) :
    ∀ (fuel attempt : Nat) (st : BatchState),
    (processWithRetryGo outcome pdfPath fuel attempt st).2 = true →
    pdfPath ∈ (processWithRetryGo outcome pdfPath fuel attempt st).1.completed ∧
    ∀ p ∈ (processWithRetryGo outcome pdfPath fuel attempt st).1.failed, p.1 ≠ pdfPath := by
  intro fuel
  induction fuel with
  | zero => intro attempt st h; simp [processWithRetryGo] at h
  | succ n ih =>
    intro attempt st h
    rw [processWithRetryGo] at h ⊢
    by_cases ho : outcome attempt = true
    · rw [if_pos ho] at h ⊢
      refine ⟨List.mem_append_right _ (List.mem_singleton.mpr rfl), ?_⟩
      intro p hp
      have := List.of_mem_filter hp
      simpa using this
    · rw [if_neg ho] at h ⊢
      exact ih (attempt + 1) _ h

/-- C10: whenever some attempt of processWithRetry succeeds, the returned
(and persisted) state contains the document path in completed and no entry
for it in failed: after a successful attempt the path is never present in
both. -/
theorem c10_success_removes_from_failed (outcome : Nat → Bool) (pdfPath : String)
    (maxRetries : Nat) (st : BatchState)
    (h : (processWithRetry outcome pdfPath maxRetries st).2 = true) :
    pdfPath ∈ (processWithRetry outcome pdfPath maxRetries st).1.completed ∧
    ∀ p ∈ (processWithRetry outcome pdfPath maxRetries st).1.failed, p.1 ≠ pdfPath :=
  processWithRetryGo_success outcome pdfPath maxRetries 1 st h

/-- C10 witness: a job that fails once and then succeeds, starting from a
state in which the path is already recorded as failed; the theorem applies
concretely. -/
theorem c10_witness :
    (processWithRetry (fun a => decide (2 ≤ a)) "doc.pdf" 3
      ⟨[], [("doc.pdf", ⟨1, "error"⟩)]⟩).2 = true ∧
    "doc.pdf" ∈ (processWithRetry (fun a => decide (2 ≤ a)) "doc.pdf" 3
      ⟨[], [("doc.pdf", ⟨1, "error"⟩)]⟩).1.completed :=
  ⟨by decide,
    (c10_success_removes_from_failed (fun a => decide (2 ≤ a)) "doc.pdf" 3
      ⟨[], [("doc.pdf", ⟨1, "error"⟩)]⟩ (by decide)).1⟩
